import Mathlib

/-! # Verification of `moonlight_generator.py`

A shallow embedding of the Moonlight app-ID generator: a Python tool that
derives numeric identifiers for applications from a CRC-32 checksum over the
app name (optionally combined with a SHA-256 digest of an image file), and
writes one `.moonlight` file per app plus a host `Moonlight.uuid` file.

Machine integers are modelled as `Nat` with explicit reduction modulo `2^32`
where the 32-bit width matters.  The filesystem is modelled as a finite map
from paths to byte lists, plus a set of paths whose reads fail and a set of
paths whose writes fail.
-/

/-! ## Decimal rendering (model of Python `str` on a non-negative int) -/

/-- Little-endian decimal digits of `n`, driven by a fuel argument
(`fuel ≥ n` suffices).  Mirrors the repeated divide-by-ten loop that
underlies decimal rendering of a non-negative integer. -/
def decDigitsRev : Nat → Nat → List Nat
  | 0, _ => []
  | f + 1, n => if n < 10 then [n] else n % 10 :: decDigitsRev f (n / 10)

/-- The character for a single decimal digit. -/
def digitChar (d : Nat) : Char :=
  if d = 0 then '0' else if d = 1 then '1' else if d = 2 then '2'
  else if d = 3 then '3' else if d = 4 then '4' else if d = 5 then '5'
  else if d = 6 then '6' else if d = 7 then '7' else if d = 8 then '8'
  else if d = 9 then '9' else '*'

/-- Decimal rendering of a natural number, the model of Python `str(n)`
for `n ≥ 0`: most-significant digit first, no leading zeros, `"0"` for zero. -/
def decRepr (n : Nat) : String :=
  ⟨((decDigitsRev (n + 1) n).reverse.map digitChar)⟩

/-- Value of a little-endian digit list. -/
def ofDigits : List Nat → Nat
  | [] => 0
  | d :: ds => d + 10 * ofDigits ds

theorem ofDigits_decDigitsRev (fuel : Nat) :
    ∀ n : Nat, n ≤ fuel → ofDigits (decDigitsRev fuel n) = n := by
  induction fuel with
  | zero => intro n hn; interval_cases n; simp [decDigitsRev, ofDigits]
  | succ f ih =>
    intro n hn
    by_cases h : n < 10
    · simp [decDigitsRev, h, ofDigits]
    · have h10 : 10 ≤ n := Nat.le_of_not_lt h
      have hdiv : n / 10 ≤ f := by
        have : n / 10 < n := Nat.div_lt_self (by omega) (by omega)
        omega
      simp only [decDigitsRev, if_neg h, ofDigits, ih (n / 10) hdiv]
      omega

theorem decDigitsRev_lt_ten (fuel : Nat) :
    ∀ n d : Nat, d ∈ decDigitsRev fuel n → d < 10 := by
  induction fuel with
  | zero => intro n d hd; simp [decDigitsRev] at hd
  | succ f ih =>
    intro n d hd
    by_cases h : n < 10
    · simp [decDigitsRev, h] at hd; omega
    · simp only [decDigitsRev, if_neg h, List.mem_cons] at hd
      rcases hd with hd | hd
      · omega
      · exact ih _ _ hd

theorem digitChar_inj : ∀ d₁ < 10, ∀ d₂ < 10,
    digitChar d₁ = digitChar d₂ → d₁ = d₂ := by decide

theorem map_digitChar_inj :
    ∀ l₁ l₂ : List Nat, (∀ d ∈ l₁, d < 10) → (∀ d ∈ l₂, d < 10) →
      l₁.map digitChar = l₂.map digitChar → l₁ = l₂ := by
  intro l₁
  induction l₁ with
  | nil => intro l₂ _ _ h; cases l₂ <;> simp_all
  | cons a as ih =>
    intro l₂ h₁ h₂ h
    cases l₂ with
    | nil => simp at h
    | cons b bs =>
      simp only [List.map_cons, List.cons.injEq] at h
      have ha : a < 10 := h₁ a (List.mem_cons_self a as)
      have hb : b < 10 := h₂ b (List.mem_cons_self b bs)
      have hab : a = b := digitChar_inj a ha b hb h.1
      have : as = bs := ih bs (fun d hd => h₁ d (List.mem_cons_of_mem a hd))
        (fun d hd => h₂ d (List.mem_cons_of_mem b hd)) h.2
      simp [hab, this]

/-- `decRepr` is injective: distinct numbers render to distinct strings. -/
theorem decRepr_inj : Function.Injective decRepr := by
  intro n m h
  have hdata : ((decDigitsRev (n + 1) n).reverse.map digitChar) =
      ((decDigitsRev (m + 1) m).reverse.map digitChar) :=
    congrArg String.data h
  have hrev : (decDigitsRev (n + 1) n).reverse = (decDigitsRev (m + 1) m).reverse :=
    map_digitChar_inj _ _
      (fun d hd => decDigitsRev_lt_ten _ _ _ (List.mem_reverse.mp hd))
      (fun d hd => decDigitsRev_lt_ten _ _ _ (List.mem_reverse.mp hd)) hdata
  have hdig : decDigitsRev (n + 1) n = decDigitsRev (m + 1) m :=
    List.reverse_injective hrev
  have hn := ofDigits_decDigitsRev (n + 1) n (by omega)
  have hm := ofDigits_decDigitsRev (m + 1) m (by omega)
  rw [← hn, ← hm, hdig]

/-! ## UTF-8 encoding (model of Python `str.encode('utf-8')`) -/

/-- UTF-8 encoding of a single Unicode code point, as a list of byte values. -/
def utf8EncodeChar (c : Nat) : List Nat :=
  if c < 0x80 then [c]
  else if c < 0x800 then
    [0xC0 ||| (c >>> 6), 0x80 ||| (c &&& 0x3F)]
  else if c < 0x10000 then
    [0xE0 ||| (c >>> 12), 0x80 ||| ((c >>> 6) &&& 0x3F), 0x80 ||| (c &&& 0x3F)]
  else
    [0xF0 ||| (c >>> 18), 0x80 ||| ((c >>> 12) &&& 0x3F),
     0x80 ||| ((c >>> 6) &&& 0x3F), 0x80 ||| (c &&& 0x3F)]

/-- UTF-8 bytes of a string. -/
def utf8Encode (s : String) : List Nat :=
  (s.data.map (fun c => utf8EncodeChar c.toNat)).flatten

/-! ## CRC-32 (model of Python `zlib.crc32`) -/

/-- The CRC-32 polynomial, bit-reversed (ISO 3309, as used by zlib/gzip). -/
def crcPoly : Nat := 0xEDB88320

/-- One bit step of the CRC-32 computation. -/
def crcBit (c : Nat) : Nat :=
  if c % 2 = 1 then (c / 2) ^^^ crcPoly else c / 2

/-- Process one byte: XOR it into the low bits, then eight bit steps. -/
def crcByte (crc b : Nat) : Nat :=
  crcBit (crcBit (crcBit (crcBit (crcBit (crcBit (crcBit (crcBit (crc ^^^ b))))))))

/-- CRC-32 of a byte list, with initial and final complement: the value
computed by `zlib.crc32(data)` for non-negative results. -/
def crc32 (data : List Nat) : Nat :=
  (data.foldl crcByte 0xFFFFFFFF) ^^^ 0xFFFFFFFF

theorem crcBit_lt (c : Nat) (h : c < 2 ^ 32) : crcBit c < 2 ^ 32 := by
  unfold crcBit
  split
  · exact Nat.xor_lt_two_pow (by omega) (by decide)
  · omega

theorem crcByte_lt (crc b : Nat) (hc : crc < 2 ^ 32) (hb : b < 2 ^ 32) :
    crcByte crc b < 2 ^ 32 := by
  unfold crcByte
  have h0 : crc ^^^ b < 2 ^ 32 := Nat.xor_lt_two_pow hc hb
  exact crcBit_lt _ (crcBit_lt _ (crcBit_lt _ (crcBit_lt _
    (crcBit_lt _ (crcBit_lt _ (crcBit_lt _ (crcBit_lt _ h0)))))))

/-- The CRC-32 byte loop again, with a branch that forces the running value
at every step: proof-by-evaluation on long inputs reduces this form without
building a deep unevaluated tower. -/
def crcLoop : Nat → List Nat → Nat
  | crc, [] => crc
  | crc, b :: bs =>
    if crcByte crc b = 0 then crcLoop 0 bs else crcLoop (crcByte crc b) bs

theorem crcLoop_eq_foldl :
    ∀ (bs : List Nat) (crc : Nat), crcLoop crc bs = List.foldl crcByte crc bs := by
  intro bs
  induction bs with
  | nil => intro crc; rfl
  | cons b bs ih =>
    intro crc
    simp only [crcLoop, List.foldl_cons]
    by_cases h : crcByte crc b = 0
    · rw [if_pos h, ih, h]
    · rw [if_neg h, ih]

theorem crc32_eq_crcLoop (data : List Nat) :
    crc32 data = crcLoop 4294967295 data ^^^ 4294967295 := by
  rw [crc32, crcLoop_eq_foldl]

/-! ## SHA-256 (model of Python `hashlib.sha256(...).hexdigest()`) -/

/-- Addition modulo `2^32`. -/
def add32 (a b : Nat) : Nat := (a + b) % 4294967296

/-- Right rotation of a 32-bit word. -/
def rotr32 (x n : Nat) : Nat := ((x >>> n) ||| (x <<< (32 - n))) % 4294967296

def bigSigma0 (x : Nat) : Nat := rotr32 x 2 ^^^ rotr32 x 13 ^^^ rotr32 x 22

def bigSigma1 (x : Nat) : Nat := rotr32 x 6 ^^^ rotr32 x 11 ^^^ rotr32 x 25

def smallSigma0 (x : Nat) : Nat := rotr32 x 7 ^^^ rotr32 x 18 ^^^ (x >>> 3)

def smallSigma1 (x : Nat) : Nat := rotr32 x 17 ^^^ rotr32 x 19 ^^^ (x >>> 10)

def shaCh (x y z : Nat) : Nat := (x &&& y) ^^^ ((x ^^^ 0xFFFFFFFF) &&& z)

def shaMaj (x y z : Nat) : Nat := (x &&& y) ^^^ (x &&& z) ^^^ (y &&& z)

/-- The 64 SHA-256 round constants (FIPS 180-4, written in decimal). -/
def shaK : List Nat :=
  [1116352408, 1899447441, 3049323471, 3921009573, 961987163,
   1508970993, 2453635748, 2870763221, 3624381080, 310598401,
   607225278, 1426881987, 1925078388, 2162078206, 2614888103,
   3248222580, 3835390401, 4022224774, 264347078, 604807628,
   770255983, 1249150122, 1555081692, 1996064986, 2554220882,
   2821834349, 2952996808, 3210313671, 3336571891, 3584528711,
   113926993, 338241895, 666307205, 773529912, 1294757372,
   1396182291, 1695183700, 1986661051, 2177026350, 2456956037,
   2730485921, 2820302411, 3259730800, 3345764771, 3516065817,
   3600352804, 4094571909, 275423344, 430227734, 506948616,
   659060556, 883997877, 958139571, 1322822218, 1537002063,
   1747873779, 1955562222, 2024104815, 2227730452, 2361852424,
   2428436474, 2756734187, 3204031479, 3329325298]

/-- The SHA-256 initial hash value (FIPS 180-4, written in decimal). -/
def shaH0 : List Nat :=
  [1779033703, 3144134277, 1013904242, 2773480762,
   1359893119, 2600822924, 528734635, 1541459225]

/-- SHA-256 padding: append `0x80`, zero bytes up to 56 mod 64, then the
message bit length as eight big-endian bytes. -/
def shaPad (msg : List Nat) : List Nat :=
  let len := msg.length
  let zeros := (119 - len % 64) % 64
  let bl := 8 * len
  msg ++ [0x80] ++ List.replicate zeros 0 ++
    [(bl >>> 56) &&& 255, (bl >>> 48) &&& 255, (bl >>> 40) &&& 255,
     (bl >>> 32) &&& 255, (bl >>> 24) &&& 255, (bl >>> 16) &&& 255,
     (bl >>> 8) &&& 255, bl &&& 255]

/-- Group bytes into big-endian 32-bit words. -/
def bytesToWords : List Nat → List Nat
  | b0 :: b1 :: b2 :: b3 :: rest =>
    ((b0 <<< 24) + (b1 <<< 16) + (b2 <<< 8) + b3) :: bytesToWords rest
  | _ => []

/-- Split a byte list into 64-byte blocks, driven by fuel. -/
def chunksAux : Nat → List Nat → List (List Nat)
  | 0, _ => []
  | _ + 1, [] => []
  | f + 1, l => l.take 64 :: chunksAux f (l.drop 64)

def chunks64 (l : List Nat) : List (List Nat) := chunksAux l.length l

/-- Extend the 16 message-schedule words by `k` further words. -/
def shaExtend (w : List Nat) : Nat → List Nat
  | 0 => w
  | k + 1 =>
    let i := w.length
    let nw := add32 (add32 (smallSigma1 (w.getD (i - 2) 0)) (w.getD (i - 7) 0))
      (add32 (smallSigma0 (w.getD (i - 15) 0)) (w.getD (i - 16) 0))
    shaExtend (w ++ [nw]) k

/-- SHA-256 working state: the eight 32-bit registers. -/
structure ShaState where
  a : Nat
  b : Nat
  c : Nat
  d : Nat
  e : Nat
  f : Nat
  g : Nat
  h : Nat

/-- One SHA-256 compression round, consuming a (round constant, schedule word)
pair. -/
def shaRound (st : ShaState) (kw : Nat × Nat) : ShaState :=
  let t1 := add32 (add32 (add32 st.h (bigSigma1 st.e)) (shaCh st.e st.f st.g))
    (add32 kw.1 kw.2)
  let t2 := add32 (bigSigma0 st.a) (shaMaj st.a st.b st.c)
  ⟨add32 t1 t2, st.a, st.b, st.c, add32 st.d t1, st.e, st.f, st.g⟩

/-- Compress one 64-byte block into the running hash (eight words). -/
def shaCompress (hs : List Nat) (block : List Nat) : List Nat :=
  let w := shaExtend (bytesToWords block) 48
  let st0 : ShaState :=
    ⟨hs.getD 0 0, hs.getD 1 0, hs.getD 2 0, hs.getD 3 0,
     hs.getD 4 0, hs.getD 5 0, hs.getD 6 0, hs.getD 7 0⟩
  let st := (shaK.zip w).foldl shaRound st0
  [add32 (hs.getD 0 0) st.a, add32 (hs.getD 1 0) st.b,
   add32 (hs.getD 2 0) st.c, add32 (hs.getD 3 0) st.d,
   add32 (hs.getD 4 0) st.e, add32 (hs.getD 5 0) st.f,
   add32 (hs.getD 6 0) st.g, add32 (hs.getD 7 0) st.h]

/-- SHA-256 digest of a byte list, as eight 32-bit words. -/
def sha256Words (msg : List Nat) : List Nat :=
  (chunks64 (shaPad msg)).foldl shaCompress shaH0

/-- The character for a single lowercase hexadecimal digit. -/
def hexChar (d : Nat) : Char :=
  if d = 0 then '0' else if d = 1 then '1' else if d = 2 then '2'
  else if d = 3 then '3' else if d = 4 then '4' else if d = 5 then '5'
  else if d = 6 then '6' else if d = 7 then '7' else if d = 8 then '8'
  else if d = 9 then '9' else if d = 10 then 'a' else if d = 11 then 'b'
  else if d = 12 then 'c' else if d = 13 then 'd' else if d = 14 then 'e'
  else if d = 15 then 'f' else '*'

/-- Eight lowercase hex characters of a 32-bit word, most significant first. -/
def wordHex (w : Nat) : List Char :=
  [hexChar ((w >>> 28) &&& 15), hexChar ((w >>> 24) &&& 15),
   hexChar ((w >>> 20) &&& 15), hexChar ((w >>> 16) &&& 15),
   hexChar ((w >>> 12) &&& 15), hexChar ((w >>> 8) &&& 15),
   hexChar ((w >>> 4) &&& 15), hexChar (w &&& 15)]

/-- Lowercase hex SHA-256 digest of a byte list: the model of Python
`hashlib.sha256(data).hexdigest()`. -/
def sha256hex (msg : List Nat) : String :=
  ⟨((sha256Words msg).map wordHex).flatten⟩

/-! ## Filesystem model

A static snapshot of the parts of the filesystem the program touches:
`files` maps each existing readable file path to its byte content,
`unreadable` lists paths that exist but whose reads raise
(`PermissionError`, or a file that vanished between the existence check and
the read), and `writeFails` lists paths where opening for write raises. -/

structure FS where
  files : List (String × List Nat)
  unreadable : List String
  writeFails : List String

/-- Model of `os.path.exists`. -/
def os_path_exists (fs : FS) (p : String) : Bool :=
  fs.files.any (fun e => e.1 == p) || fs.unreadable.contains p

/-- Content of a readable file, if any. -/
def fsLookup (fs : FS) (p : String) : Option (List Nat) :=
  (fs.files.find? (fun e => e.1 == p)).map (fun e => e.2)

/-- Model of `os.path.join` for a plain relative component. -/
def pathJoin (dir name : String) : String := dir ++ "/" ++ name

/-! ## The source functions of `moonlight_generator.py` -/

/-- The characters the regex class `[<>:"/\\|?*]` matches. -/
def isInvalidFileChar (c : Char) : Bool :=
  c == '<' || c == '>' || c == ':' || c == '\"' || c == '/' || c == '\\' ||
    c == '|' || c == '?' || c == '*'

/-- `sanitize_filename`: replace each invalid character with an underscore,
then strip trailing dots and spaces (Python `re.sub` + `str.rstrip('. ')`). -/
def sanitize_filename (filename : String) : String :=
  let sanitized := filename.data.map (fun c => if isInvalidFileChar c then '_' else c)
  ⟨(sanitized.reverse.dropWhile (fun c => c == '.' || c == ' ')).reverse⟩

/-- `calculate_sha256`: hex digest of the file's bytes, `none` when the read
raises `FileNotFoundError` or `PermissionError`. -/
def calculate_sha256 (fs : FS) (file_path : String) : Option String :=
  (fsLookup fs file_path).map sha256hex

def DEFAULT_APP_IMAGE_PATH : String := "default_image.png"

/-- `validate_app_image_path`: fall back to the sentinel default path when
the given path is falsy or does not exist. -/
def validate_app_image_path (fs : FS) (image_path : String) : String :=
  if image_path == "" || !os_path_exists fs image_path then DEFAULT_APP_IMAGE_PATH
  else image_path

/-- `calculate_crc32`: CRC-32 of the UTF-8 bytes, masked to 32 bits. -/
def calculate_crc32 (data : String) : Nat :=
  crc32 (utf8Encode data) &&& 0xffffffff

/-- The numeric value of the expression
`abs((crc ^ 0x80000000) - 0x80000000)` from `calculate_app_id`:
the XOR acts on the non-negative checksum, the subtraction is exact integer
arithmetic, `abs` the integer absolute value. -/
def idFromCrc (crc : Nat) : Nat :=
  (((crc ^^^ 0x80000000 : Nat) : Int) - 0x80000000).natAbs

/-- `calculate_app_id`: derive the index-free and index-scoped identifier
strings from the app name, the (validated) image path and the index. -/
def calculate_app_id (fs : FS) (app_name app_image_path : String)
    (index : Nat) : String × String :=
  let to_hash : List String := [app_name]
  let file_path := validate_app_image_path fs app_image_path
  let to_hash :=
    if file_path ≠ DEFAULT_APP_IMAGE_PATH then
      match calculate_sha256 fs file_path with
      | some file_hash => to_hash ++ [file_hash]
      | none => to_hash ++ [file_path]
    else to_hash
  let input_no_index := String.join to_hash
  let input_with_index := input_no_index ++ decRepr index
  (decRepr (idFromCrc (calculate_crc32 input_no_index)),
   decRepr (idFromCrc (calculate_crc32 input_with_index)))

/-- An element of the `apps` array: `name` and `image-path` are both
optional keys (`app.get(...)`). -/
structure AppRec where
  name : Option String
  imagePath : Option String
  deriving DecidableEq

/-- Outcome of opening and parsing `apps.json`. -/
inductive AppsSource where
  | missing
  | malformed
  | ok (apps : List AppRec)

/-- `load_apps_json`: the `apps` list on success; on `FileNotFoundError` or
`json.JSONDecodeError` the error is printed and `[]` returned — no exception
escapes. -/
def load_apps_json : AppsSource → List AppRec
  | .missing => []
  | .malformed => []
  | .ok apps => apps

/-- Model of Python `str.endswith`. -/
def endsWithStr (s suf : String) : Bool :=
  decide (suf.data.length ≤ s.data.length) &&
    (s.data.drop (s.data.length - suf.data.length) == suf.data)

/-- Does `clear_output_folder` delete this directory entry? -/
def shouldDelete (filename : String) : Bool :=
  endsWithStr filename ".moonlight" || filename == "Moonlight.uuid"

/-- `clear_output_folder` over a directory listing: the pair of the entries
that remain and the number of deleted entries (the function's return value). -/
def clear_output_folder (listing : List String) : List String × Nat :=
  (listing.filter (fun f => !shouldDelete f), (listing.filter shouldDelete).length)

/-- `create_uuid_file`: the writes it performs and its success flag. -/
def create_uuid_file (fs : FS) (output_dir host_uuid : String) :
    List (String × String) × Bool :=
  let uuid_file_path := pathJoin output_dir "Moonlight.uuid"
  if fs.writeFails.contains uuid_file_path then ([], false)
  else ([(uuid_file_path, host_uuid)], true)

/-- The per-app loop of `create_moonlight_files` (`for index, app in
enumerate(apps)` starting at `index`): the list of successful writes in
order, and the count of successfully created files. -/
def processApps (fs : FS) (output_dir : String) (use_index : Bool) :
    Nat → List AppRec → List (String × String) × Nat
  | _, [] => ([], 0)
  | index, app :: rest =>
    let app_name := app.name.getD ("App_" ++ decRepr index)
    let app_image_path := app.imagePath.getD ""
    let ids := calculate_app_id fs app_name app_image_path index
    let app_id := if use_index then ids.2 else ids.1
    let safe_filename := sanitize_filename app_name
    let file_path := pathJoin output_dir (safe_filename ++ ".moonlight")
    let r := processApps fs output_dir use_index (index + 1) rest
    if fs.writeFails.contains file_path then r
    else ((file_path, app_id) :: r.1, r.2 + 1)

/-- The observable outcome of `create_moonlight_files`: entries deleted by
the clear step, file writes performed (path, content) in order, and the
returned count of created `.moonlight` files. -/
structure MoonOut where
  deleted : List String
  writes : List (String × String)
  created : Nat
  deriving DecidableEq

/-- `create_moonlight_files`: optionally clear the output directory
(`listing` models `os.listdir(output_dir)`), write the UUID file when a host
UUID is present, then process every app. -/
def create_moonlight_files (fs : FS) (listing : List String)
    (apps : List AppRec) (output_dir : String) (use_index : Bool)
    (host_uuid : Option String) (clear_folder : Bool) : MoonOut :=
  let deleted := if clear_folder then listing.filter shouldDelete else []
  let uuidWrites :=
    match host_uuid with
    | some u => (create_uuid_file fs output_dir u).1
    | none => []
  let r := processApps fs output_dir use_index 0 apps
  ⟨deleted, uuidWrites ++ r.1, r.2⟩

/-- `main` (modelled as `mainRun`, since Lean reserves the name) from the point where inputs are resolved: when the apps list is
empty (missing/malformed/empty `apps.json`) it returns before
`create_moonlight_files`, so nothing is deleted or written. -/
def mainRun (appsSrc : AppsSource) (host_uuid : Option String) (fs : FS)
    (listing : List String) (output_dir : String)
    (use_index clear_folder : Bool) : MoonOut :=
  let apps := load_apps_json appsSrc
  if apps.isEmpty then ⟨[], [], 0⟩
  else create_moonlight_files fs listing apps output_dir use_index host_uuid clear_folder

/-! ## Spec-side definitions -/

/-- Modelled from the spec: reinterpret a 32-bit unsigned value as a
two's-complement signed 32-bit integer. -/
def toSigned32 (n : Nat) : Int :=
  if n < 2 ^ 31 then (n : Int) else (n : Int) - 2 ^ 32

/-! ## The signed-then-absolute transform -/

theorem xor_two_pow_31_of_lt (r : Nat) (hr : r < 2 ^ 31) :
    r ^^^ 2 ^ 31 = 2 ^ 31 + r := by
  apply Nat.eq_of_testBit_eq
  intro i
  rw [Nat.testBit_xor]
  rcases lt_trichotomy i 31 with hi | hi | hi
  · rw [Nat.testBit_two_pow_add_gt hi, Nat.testBit_two_pow_of_ne (by omega)]
    simp
  · subst hi
    rw [Nat.testBit_two_pow_add_eq, Nat.testBit_two_pow_self,
        Nat.testBit_lt_two_pow hr]
    simp
  · have h1 : 2 ^ 31 + r < 2 ^ i := by
      calc 2 ^ 31 + r < 2 ^ 32 := by omega
        _ ≤ 2 ^ i := Nat.pow_le_pow_right (by omega) (by omega)
    have h2 : r < 2 ^ i := by omega
    rw [Nat.testBit_lt_two_pow h1, Nat.testBit_lt_two_pow h2,
        Nat.testBit_two_pow_of_ne (by omega)]
    simp

theorem xor_two_pow_31_of_ge (c : Nat) (h1 : 2 ^ 31 ≤ c) (h2 : c < 2 ^ 32) :
    c ^^^ 2 ^ 31 = c - 2 ^ 31 := by
  have hr : c - 2 ^ 31 < 2 ^ 31 := by omega
  have hx := xor_two_pow_31_of_lt (c - 2 ^ 31) hr
  have hc : 2 ^ 31 + (c - 2 ^ 31) = c := by omega
  rw [hc] at hx
  calc c ^^^ 2 ^ 31 = ((c - 2 ^ 31) ^^^ 2 ^ 31) ^^^ 2 ^ 31 := by rw [hx]
    _ = (c - 2 ^ 31) ^^^ (2 ^ 31 ^^^ 2 ^ 31) := Nat.xor_assoc ..
    _ = c - 2 ^ 31 := by rw [Nat.xor_self, Nat.xor_zero]

/-- The code's `abs((crc ^ 0x80000000) - 0x80000000)` agrees with the spec's
"reinterpret as signed 32-bit, then take the absolute value" on every
32-bit checksum. -/
theorem idFromCrc_eq_natAbs_toSigned32 (crc : Nat) (h : crc < 2 ^ 32) :
    idFromCrc crc = (toSigned32 crc).natAbs := by
  unfold idFromCrc toSigned32
  have h31 : (0x80000000 : Nat) = 2 ^ 31 := by norm_num
  by_cases hc : crc < 2 ^ 31
  · rw [h31, xor_two_pow_31_of_lt crc hc, if_pos hc]
    omega
  · rw [h31, xor_two_pow_31_of_ge crc (by omega) h, if_neg hc]
    have : (2 : Int) ^ 32 = 4294967296 := by norm_num
    omega

/-- The derived value never exceeds `2^31`. -/
theorem idFromCrc_le (crc : Nat) (h : crc < 2 ^ 32) :
    idFromCrc crc ≤ 2 ^ 31 := by
  unfold idFromCrc
  have h31 : (0x80000000 : Nat) = 2 ^ 31 := by norm_num
  by_cases hc : crc < 2 ^ 31
  · rw [h31, xor_two_pow_31_of_lt crc hc]
    omega
  · rw [h31, xor_two_pow_31_of_ge crc (by omega) h]
    omega

/-- `calculate_crc32` always yields a 32-bit value (the source masks with
`0xffffffff`). -/
theorem calculate_crc32_lt (data : String) : calculate_crc32 data < 2 ^ 32 :=
  lt_of_le_of_lt Nat.and_le_right (by norm_num)

/-- Evaluation form of `calculate_crc32` through the strict loop. -/
theorem calculate_crc32_eq_loop (s : String) :
    calculate_crc32 s =
      (crcLoop 4294967295 (utf8Encode s) ^^^ 4294967295) &&& 4294967295 := by
  unfold calculate_crc32
  rw [crc32_eq_crcLoop]

/-! ## String helpers -/

theorem join_one (a : String) : String.join [a] = a := by
  apply String.ext
  simp [String.join]

theorem join_two (a b : String) : String.join [a, b] = a ++ b := by
  apply String.ext
  simp [String.join]

theorem string_append_left_cancel (a b c : String) (h : a ++ b = a ++ c) :
    b = c := by
  apply String.ext
  have := congrArg String.data h
  simp only [String.data_append] at this
  exact List.append_cancel_left this

theorem endsWithStr_iff (s suf : String) :
    endsWithStr s suf = true ↔ ∃ p : String, s = p ++ suf := by
  unfold endsWithStr
  constructor
  · intro h
    simp only [Bool.and_eq_true, decide_eq_true_eq, beq_iff_eq] at h
    refine ⟨⟨s.data.take (s.data.length - suf.data.length)⟩, ?_⟩
    apply String.ext
    simp only [String.data_append]
    conv_lhs => rw [← List.take_append_drop (s.data.length - suf.data.length) s.data]
    rw [h.2]
  · rintro ⟨p, rfl⟩
    simp only [Bool.and_eq_true, decide_eq_true_eq, beq_iff_eq, String.data_append]
    constructor
    · simp [List.length_append]
    · rw [List.length_append, Nat.add_sub_cancel, List.drop_left]

/-- A sanitized app filename can never collide with the UUID filename. -/
theorem moonlight_ne_uuid_name (x : String) :
    x ++ ".moonlight" ≠ "Moonlight.uuid" := by
  intro h
  have hd := congrArg String.data h
  simp only [String.data_append] at hd
  have := congrArg List.getLast? hd
  rw [List.getLast?_append] at this
  simp at this

/-! ## Characterizing `calculate_app_id` -/

/-- The base hash-input string built by lines 44–59 of `calculate_app_id`:
the app name, possibly followed by the image digest or the image path. -/
def hashBase (fs : FS) (app_name app_image_path : String) : String :=
  let file_path := validate_app_image_path fs app_image_path
  if file_path ≠ DEFAULT_APP_IMAGE_PATH then
    match calculate_sha256 fs file_path with
    | some file_hash => app_name ++ file_hash
    | none => app_name ++ file_path
  else app_name

theorem calculate_app_id_eq (fs : FS) (n p : String) (i : Nat) :
    calculate_app_id fs n p i =
      (decRepr (idFromCrc (calculate_crc32 (hashBase fs n p))),
       decRepr (idFromCrc (calculate_crc32 (hashBase fs n p ++ decRepr i)))) := by
  simp only [calculate_app_id, hashBase]
  split
  · split <;> simp [join_two]
  · simp [join_one]

theorem os_path_exists_of_fsLookup (fs : FS) (p : String) (c : List Nat)
    (h : fsLookup fs p = some c) : os_path_exists fs p = true := by
  unfold fsLookup at h
  cases hf : fs.files.find? (fun e => e.1 == p) with
  | none => rw [hf] at h; simp at h
  | some e =>
    have hmem := List.mem_of_find?_eq_some hf
    have hpred := List.find?_some hf
    unfold os_path_exists
    rw [Bool.or_eq_true]
    exact Or.inl (List.any_eq_true.mpr ⟨e, hmem, hpred⟩)

/-- No image contribution: an empty path, a non-existing path, or a path
equal to the sentinel leaves the hash input at the bare name. -/
theorem hashBase_noimage (fs : FS) (n p : String)
    (h : p = "" ∨ os_path_exists fs p = false ∨ p = DEFAULT_APP_IMAGE_PATH) :
    hashBase fs n p = n := by
  unfold hashBase validate_app_image_path
  rcases h with h | h | h
  · subst h; simp
  · by_cases he : p == ""
    · simp [he]
    · simp only [he, h, Bool.false_or, Bool.not_false, if_pos]
      simp
  · subst h
    by_cases he : os_path_exists fs DEFAULT_APP_IMAGE_PATH
    · simp [he, DEFAULT_APP_IMAGE_PATH]
    · simp [he, DEFAULT_APP_IMAGE_PATH]

/-- Readable image: the digest of the content is appended. -/
theorem hashBase_readable (fs : FS) (n p : String) (c : List Nat)
    (hne : p ≠ "") (hdef : p ≠ DEFAULT_APP_IMAGE_PATH)
    (hread : fsLookup fs p = some c) :
    hashBase fs n p = n ++ sha256hex c := by
  have hex : os_path_exists fs p = true := os_path_exists_of_fsLookup fs p c hread
  unfold hashBase validate_app_image_path
  have hne' : (p == "") = false := beq_eq_false_iff_ne.mpr hne
  simp only [hne', hex, Bool.not_true, Bool.or_false, Bool.false_or, if_neg Bool.false_ne_true]
  rw [if_pos hdef]
  unfold calculate_sha256
  rw [hread]
  rfl

/-- Existing but unreadable image: the raw path string is appended. -/
theorem hashBase_unreadable (fs : FS) (n p : String)
    (hne : p ≠ "") (hdef : p ≠ DEFAULT_APP_IMAGE_PATH)
    (hex : os_path_exists fs p = true) (hread : fsLookup fs p = none) :
    hashBase fs n p = n ++ p := by
  unfold hashBase validate_app_image_path
  have hne' : (p == "") = false := beq_eq_false_iff_ne.mpr hne
  simp only [hne', hex, Bool.not_true, Bool.or_false, Bool.false_or, if_neg Bool.false_ne_true]
  rw [if_pos hdef]
  unfold calculate_sha256
  rw [hread]
  rfl

/-! ## Properties of `sanitize_filename` -/

theorem sanitize_data (s : String) : (sanitize_filename s).data =
    ((s.data.map fun c => if isInvalidFileChar c then '_' else c).reverse.dropWhile
      fun c => c == '.' || c == ' ').reverse := rfl

/-- No invalid character survives sanitization. -/
theorem sanitize_no_invalid (s : String) :
    ∀ c ∈ (sanitize_filename s).data, isInvalidFileChar c = false := by
  intro c hc
  rw [sanitize_data] at hc
  have h1 := List.mem_reverse.mp hc
  have h2 := (List.dropWhile_sublist _).mem h1
  have h3 := List.mem_reverse.mp h2
  obtain ⟨a, _, rfl⟩ := List.mem_map.mp h3
  by_cases h : isInvalidFileChar a
  · simp only [h, if_true]
    decide
  · simp only [h, if_neg]
    simpa using h

/-- The sanitized name has no trailing dot or space. -/
theorem sanitize_last (s : String) (c : Char)
    (h : (sanitize_filename s).data.getLast? = some c) : c ≠ '.' ∧ c ≠ ' ' := by
  rw [sanitize_data, List.getLast?_reverse] at h
  have := List.head?_dropWhile_not (fun c => c == '.' || c == ' ')
    ((s.data.map fun c => if isInvalidFileChar c then '_' else c).reverse)
  rw [h] at this
  simp only [Bool.or_eq_false_iff, beq_eq_false_iff_ne] at this
  exact this

/-- `sanitize_filename` is idempotent. -/
theorem sanitize_idem (s : String) :
    sanitize_filename (sanitize_filename s) = sanitize_filename s := by
  have hfix : ∀ c ∈ (sanitize_filename s).data,
      (fun c => if isInvalidFileChar c then '_' else c) c = id c := by
    intro c hc
    simp [sanitize_no_invalid s c hc]
  have hmap := (List.map_congr_left hfix).trans (List.map_id _)
  apply String.ext
  conv_lhs => rw [sanitize_data, hmap, sanitize_data, List.reverse_reverse,
    List.dropWhile_idempotent]
  rw [sanitize_data]

/-! ## Characterizing the per-app loop -/

/-- The write attempted for one enumerated app: `none` when the write
raises, otherwise the (path, selected identifier) pair. -/
def appWrite (fs : FS) (output_dir : String) (use_index : Bool)
    (ia : Nat × AppRec) : Option (String × String) :=
  let app_name := ia.2.name.getD ("App_" ++ decRepr ia.1)
  let ids := calculate_app_id fs app_name (ia.2.imagePath.getD "") ia.1
  let file_path := pathJoin output_dir (sanitize_filename app_name ++ ".moonlight")
  if fs.writeFails.contains file_path then none
  else some (file_path, if use_index then ids.2 else ids.1)

/-- The loop writes exactly the successful `appWrite` results of the
enumerated app list, in input order, and counts exactly those writes. -/
theorem processApps_eq (fs : FS) (d : String) (ui : Bool) :
    ∀ (apps : List AppRec) (i : Nat),
      processApps fs d ui i apps =
        ((List.enumFrom i apps).filterMap (appWrite fs d ui),
         ((List.enumFrom i apps).filterMap (appWrite fs d ui)).length) := by
  intro apps
  induction apps with
  | nil => intro i; simp [processApps]
  | cons a rest ih =>
    intro i
    simp only [processApps, List.enumFrom_cons, List.filterMap_cons, ih (i + 1)]
    by_cases hw : pathJoin d (sanitize_filename (a.name.getD ("App_" ++ decRepr i)) ++
        ".moonlight") ∈ fs.writeFails
    · simp [appWrite, hw]
    · simp [appWrite, hw]

/-- Every successful write targets a `<something>.moonlight` path inside the
output directory. -/
theorem appWrite_path (fs : FS) (d : String) (ui : Bool) (ia : Nat × AppRec)
    (e : String × String) (h : appWrite fs d ui ia = some e) :
    ∃ x, e.1 = pathJoin d (x ++ ".moonlight") := by
  unfold appWrite at h
  by_cases hw : pathJoin d (sanitize_filename (ia.2.name.getD ("App_" ++ decRepr ia.1)) ++
      ".moonlight") ∈ fs.writeFails
  · simp [hw] at h
  · simp [hw, Prod.ext_iff] at h
    exact ⟨sanitize_filename (ia.2.name.getD ("App_" ++ decRepr ia.1)), h.1.symm⟩

/-! ## Unfolding `create_moonlight_files` -/

theorem create_writes_none_uuid (fs : FS) (listing : List String)
    (apps : List AppRec) (d : String) (ui cf : Bool) :
    (create_moonlight_files fs listing apps d ui none cf).writes =
      (processApps fs d ui 0 apps).1 := by
  simp [create_moonlight_files]

theorem create_writes_some_uuid (fs : FS) (listing : List String)
    (apps : List AppRec) (d : String) (ui cf : Bool) (u : String)
    (h : pathJoin d "Moonlight.uuid" ∉ fs.writeFails) :
    (create_moonlight_files fs listing apps d ui (some u) cf).writes =
      (pathJoin d "Moonlight.uuid", u) :: (processApps fs d ui 0 apps).1 := by
  simp [create_moonlight_files, create_uuid_file, h]

theorem create_created_eq (fs : FS) (listing : List String) (apps : List AppRec)
    (d : String) (ui cf : Bool) (uuid : Option String) :
    (create_moonlight_files fs listing apps d ui uuid cf).created =
      (processApps fs d ui 0 apps).2 := by
  cases uuid <;> simp [create_moonlight_files]

theorem pathJoin_right_inj (d a b : String) (h : pathJoin d a = pathJoin d b) :
    a = b :=
  string_append_left_cancel (d ++ "/") a b h

/-! ## The claims -/

/-- C1: the derived identifier is the decimal rendering of
`abs(to_signed_32(crc32(s)))`; the code's `abs((crc ^ 0x80000000) - 0x80000000)`
computes exactly that for every 32-bit checksum, and the app `Chrome` (no
image, index 0, `use_index=false`) yields a `Chrome.moonlight` file whose
content is exactly `str(abs(to_signed_32(crc32("Chrome"))))`. -/
theorem C1_identifier_is_abs_signed_crc32 :
    (∀ crc : Nat, crc < 2 ^ 32 → idFromCrc crc = (toSigned32 crc).natAbs) ∧
    (∀ (fs : FS) (d : String), fs.writeFails = [] →
      (create_moonlight_files fs [] [⟨some "Chrome", none⟩] d false none false).writes =
        [(pathJoin d "Chrome.moonlight",
          decRepr (toSigned32 (calculate_crc32 "Chrome")).natAbs)]) := by
  constructor
  · exact idFromCrc_eq_natAbs_toSigned32
  · intro fs d hw
    have hbase : hashBase fs "Chrome" "" = "Chrome" :=
      hashBase_noimage fs "Chrome" "" (Or.inl rfl)
    have habs : idFromCrc (calculate_crc32 "Chrome") =
        (toSigned32 (calculate_crc32 "Chrome")).natAbs :=
      idFromCrc_eq_natAbs_toSigned32 _ (calculate_crc32_lt "Chrome")
    rw [create_writes_none_uuid, processApps_eq]
    simp only [List.enumFrom_cons, List.enumFrom_nil, List.filterMap_cons,
      List.filterMap_nil]
    have hsan : sanitize_filename "Chrome" = "Chrome" := by decide
    simp [appWrite, hw, calculate_app_id_eq, hbase, habs, hsan]

/-- Witness for C1 at concrete inputs. -/
theorem C1_identifier_is_abs_signed_crc32_witness :
    (5 < 2 ^ 32 ∧ idFromCrc 5 = (toSigned32 5).natAbs) ∧
    ((⟨[], [], []⟩ : FS).writeFails = [] ∧
      (create_moonlight_files ⟨[], [], []⟩ [] [⟨some "Chrome", none⟩] "out" false
        none false).writes =
        [(pathJoin "out" "Chrome.moonlight",
          decRepr (toSigned32 (calculate_crc32 "Chrome")).natAbs)]) :=
  ⟨⟨by norm_num, C1_identifier_is_abs_signed_crc32.1 5 (by norm_num)⟩,
   ⟨rfl, C1_identifier_is_abs_signed_crc32.2 ⟨[], [], []⟩ "out" rfl⟩⟩

set_option maxRecDepth 100000 in
/-- C2 counterexample: an image path equal to the sentinel
`default_image.png` that names an existing readable file.  The claim says the
digest of the file's bytes must be appended to the hash input, but the code's
`file_path != DEFAULT_APP_IMAGE_PATH` test makes it contribute nothing: the
identifiers coincide with the no-image identifiers and differ from the
digest-appended identifiers the claim prescribes. -/
theorem C2_counterexample :
    os_path_exists ⟨[("default_image.png", [120])], [], []⟩ "default_image.png" = true ∧
    fsLookup ⟨[("default_image.png", [120])], [], []⟩ "default_image.png" = some [120] ∧
    calculate_app_id ⟨[("default_image.png", [120])], [], []⟩ "A" "default_image.png" 0 =
      calculate_app_id ⟨[("default_image.png", [120])], [], []⟩ "A" "" 0 ∧
    (calculate_app_id ⟨[("default_image.png", [120])], [], []⟩ "A" "default_image.png" 0).1 ≠
      decRepr (idFromCrc (calculate_crc32 ("A" ++ sha256hex [120]))) :=
  ⟨by decide, by decide, by decide, by rw [calculate_crc32_eq_loop]; decide⟩

/-- C2 (amended): an absent/empty, non-existing, or sentinel-equal image path
contributes nothing beyond the name; otherwise a readable file's hex SHA-256
digest is appended, and only on a read failure is the raw path appended. -/
theorem C2_amended_hash_input :
    ∀ (fs : FS) (n p : String) (i : Nat),
      ((p = "" ∨ os_path_exists fs p = false ∨ p = DEFAULT_APP_IMAGE_PATH) →
        calculate_app_id fs n p i =
          (decRepr (idFromCrc (calculate_crc32 n)),
           decRepr (idFromCrc (calculate_crc32 (n ++ decRepr i))))) ∧
      (∀ c : List Nat, p ≠ "" → p ≠ DEFAULT_APP_IMAGE_PATH →
        fsLookup fs p = some c →
        calculate_app_id fs n p i =
          (decRepr (idFromCrc (calculate_crc32 (n ++ sha256hex c))),
           decRepr (idFromCrc (calculate_crc32 (n ++ sha256hex c ++ decRepr i))))) ∧
      (p ≠ "" → p ≠ DEFAULT_APP_IMAGE_PATH → os_path_exists fs p = true →
        fsLookup fs p = none →
        calculate_app_id fs n p i =
          (decRepr (idFromCrc (calculate_crc32 (n ++ p))),
           decRepr (idFromCrc (calculate_crc32 (n ++ p ++ decRepr i))))) := by
  intro fs n p i
  refine ⟨?_, ?_, ?_⟩
  · intro h
    rw [calculate_app_id_eq, hashBase_noimage fs n p h]
  · intro c h1 h2 h3
    rw [calculate_app_id_eq, hashBase_readable fs n p c h1 h2 h3]
  · intro h1 h2 h3 h4
    rw [calculate_app_id_eq, hashBase_unreadable fs n p h1 h2 h3 h4]

set_option maxRecDepth 100000 in
/-- Witness for the amended C2 at concrete inputs: the no-image branch and
the readable-image branch. -/
theorem C2_amended_hash_input_witness :
    (calculate_app_id ⟨[("img.png", [120])], [], []⟩ "A" "" 0 =
      (decRepr (idFromCrc (calculate_crc32 "A")),
       decRepr (idFromCrc (calculate_crc32 ("A" ++ decRepr 0))))) ∧
    (calculate_app_id ⟨[("img.png", [120])], [], []⟩ "A" "img.png" 0 =
      (decRepr (idFromCrc (calculate_crc32 ("A" ++ sha256hex [120]))),
       decRepr (idFromCrc (calculate_crc32 ("A" ++ sha256hex [120] ++ decRepr 0))))) :=
  ⟨(C2_amended_hash_input ⟨[("img.png", [120])], [], []⟩ "A" "" 0).1 (Or.inl rfl),
   (C2_amended_hash_input ⟨[("img.png", [120])], [], []⟩ "A" "img.png" 0).2.1 [120]
     (by decide) (by decide) (by decide)⟩

set_option maxRecDepth 100000 in
/-- C3: the stable identifier never depends on the index; the scoped
identifiers of two indices coincide exactly when the checksum-derived values
of the two indexed hash inputs collide (so the scoped identifier changes with
the index except on checksum collision); concretely, indices 0 and 1 give
different scoped identifiers for the app `Chrome`. -/
theorem C3_stable_invariant_scoped_index :
    (∀ (fs : FS) (n p : String) (i j : Nat),
      (calculate_app_id fs n p i).1 = (calculate_app_id fs n p j).1) ∧
    (∀ (fs : FS) (n p : String) (i j : Nat),
      ((calculate_app_id fs n p i).2 = (calculate_app_id fs n p j).2 ↔
        idFromCrc (calculate_crc32 (hashBase fs n p ++ decRepr i)) =
          idFromCrc (calculate_crc32 (hashBase fs n p ++ decRepr j)))) ∧
    (calculate_app_id ⟨[], [], []⟩ "Chrome" "" 0).2 ≠
      (calculate_app_id ⟨[], [], []⟩ "Chrome" "" 1).2 := by
  refine ⟨?_, ?_, ?_⟩
  · intro fs n p i j
    rw [calculate_app_id_eq, calculate_app_id_eq]
  · intro fs n p i j
    rw [calculate_app_id_eq, calculate_app_id_eq]
    exact ⟨fun h => decRepr_inj h, fun h => congrArg decRepr h⟩
  · decide

/-- Witness for C3 at concrete inputs. -/
theorem C3_stable_invariant_scoped_index_witness :
    (calculate_app_id ⟨[], [], []⟩ "W" "" 0).1 = (calculate_app_id ⟨[], [], []⟩ "W" "" 9).1 ∧
    (calculate_app_id ⟨[], [], []⟩ "W" "" 3).2 = (calculate_app_id ⟨[], [], []⟩ "W" "" 3).2 :=
  ⟨C3_stable_invariant_scoped_index.1 ⟨[], [], []⟩ "W" "" 0 9,
   (C3_stable_invariant_scoped_index.2.1 ⟨[], [], []⟩ "W" "" 3 3).mpr rfl⟩

set_option maxRecDepth 100000 in
/-- C4 counterexample: a valid (existing, readable) image file whose path is
the sentinel `default_image.png`.  Changing its byte content (`[48]` versus
`[49]`, i.e. `"0"` versus `"1"`) changes neither derived identifier, because
the sentinel-named file contributes nothing to the hash input. -/
theorem C4_counterexample :
    ([48] : List Nat) ≠ [49] ∧
    fsLookup ⟨[("default_image.png", [48])], [], []⟩ "default_image.png" = some [48] ∧
    fsLookup ⟨[("default_image.png", [49])], [], []⟩ "default_image.png" = some [49] ∧
    calculate_app_id ⟨[("default_image.png", [48])], [], []⟩ "A" "default_image.png" 0 =
      calculate_app_id ⟨[("default_image.png", [49])], [], []⟩ "A" "default_image.png" 0 :=
  ⟨by decide, by decide, by decide, by decide⟩

/-- C4 (amended): for readable image paths distinct from the sentinel
`default_image.png`, byte-identical content at any two paths yields identical
identifier pairs (moving or renaming the image changes nothing), and the
identifier pairs of two contents coincide exactly when the checksum-derived
values of their digest-appended hash inputs collide — so changing the content
changes both identifiers except in the rare case of checksum collision. -/
theorem C4_amended_content_determines_id :
    ∀ (n : String) (i : Nat) (p1 p2 : String) (c1 c2 : List Nat) (fs1 fs2 : FS),
      p1 ≠ "" → p2 ≠ "" →
      p1 ≠ DEFAULT_APP_IMAGE_PATH → p2 ≠ DEFAULT_APP_IMAGE_PATH →
      fsLookup fs1 p1 = some c1 → fsLookup fs2 p2 = some c2 →
      ((c1 = c2 → calculate_app_id fs1 n p1 i = calculate_app_id fs2 n p2 i) ∧
       (calculate_app_id fs1 n p1 i = calculate_app_id fs2 n p2 i ↔
         (idFromCrc (calculate_crc32 (n ++ sha256hex c1)) =
            idFromCrc (calculate_crc32 (n ++ sha256hex c2)) ∧
          idFromCrc (calculate_crc32 (n ++ sha256hex c1 ++ decRepr i)) =
            idFromCrc (calculate_crc32 (n ++ sha256hex c2 ++ decRepr i))))) := by
  intro n i p1 p2 c1 c2 fs1 fs2 h1 h2 h3 h4 h5 h6
  have e1 : calculate_app_id fs1 n p1 i =
      (decRepr (idFromCrc (calculate_crc32 (n ++ sha256hex c1))),
       decRepr (idFromCrc (calculate_crc32 (n ++ sha256hex c1 ++ decRepr i)))) := by
    rw [calculate_app_id_eq, hashBase_readable fs1 n p1 c1 h1 h3 h5]
  have e2 : calculate_app_id fs2 n p2 i =
      (decRepr (idFromCrc (calculate_crc32 (n ++ sha256hex c2))),
       decRepr (idFromCrc (calculate_crc32 (n ++ sha256hex c2 ++ decRepr i)))) := by
    rw [calculate_app_id_eq, hashBase_readable fs2 n p2 c2 h2 h4 h6]
  constructor
  · intro hc
    rw [e1, e2, hc]
  · rw [e1, e2]
    constructor
    · intro h
      exact ⟨decRepr_inj (congrArg Prod.fst h), decRepr_inj (congrArg Prod.snd h)⟩
    · intro h
      rw [h.1, h.2]

/-- Witness for the amended C4: the same one-byte content at two different
paths yields the same identifier pair. -/
theorem C4_amended_content_determines_id_witness :
    calculate_app_id ⟨[("img1.png", [120])], [], []⟩ "A" "img1.png" 0 =
      calculate_app_id ⟨[("img2.png", [120])], [], []⟩ "A" "img2.png" 0 :=
  (C4_amended_content_determines_id "A" 0 "img1.png" "img2.png" [120] [120]
    ⟨[("img1.png", [120])], [], []⟩ ⟨[("img2.png", [120])], [], []⟩
    (by decide) (by decide) (by decide) (by decide) (by decide) (by decide)).1 rfl

/-- C5: sanitization replaces every occurrence of the nine invalid
characters, strips trailing dots and spaces, is idempotent, and sends
`Foo/Bar:Baz` to the output filename `Foo_Bar_Baz.moonlight`. -/
theorem C5_sanitize_filename_properties :
    (∀ s : String, ∀ c ∈ (sanitize_filename s).data, isInvalidFileChar c = false) ∧
    (∀ (s : String) (c : Char), (sanitize_filename s).data.getLast? = some c →
      c ≠ '.' ∧ c ≠ ' ') ∧
    (∀ s : String, sanitize_filename (sanitize_filename s) = sanitize_filename s) ∧
    sanitize_filename "Foo/Bar:Baz" ++ ".moonlight" = "Foo_Bar_Baz.moonlight" :=
  ⟨sanitize_no_invalid, sanitize_last, sanitize_idem, by decide⟩

/-- Witness for C5 at concrete inputs. -/
theorem C5_sanitize_filename_properties_witness :
    isInvalidFileChar 'F' = false ∧ ('z' ≠ '.' ∧ 'z' ≠ ' ') :=
  ⟨C5_sanitize_filename_properties.1 "Foo" 'F' (by decide),
   C5_sanitize_filename_properties.2.1 "Baz" 'z' (by decide)⟩

/-- A directory entry is deleted exactly when its name has the `.moonlight`
suffix or is exactly `Moonlight.uuid`. -/
theorem shouldDelete_iff (f : String) :
    shouldDelete f = true ↔
      (∃ p : String, f = p ++ ".moonlight") ∨ f = "Moonlight.uuid" := by
  unfold shouldDelete
  rw [Bool.or_eq_true, endsWithStr_iff]
  constructor
  · rintro (h | h)
    · exact Or.inl h
    · exact Or.inr (by simpa using h)
  · rintro (h | h)
    · exact Or.inl h
    · exact Or.inr (by simpa using h)

/-- C6: clearing deletes exactly the entries ending in `.moonlight` or named
exactly `Moonlight.uuid`, returns their count, and every other entry of the
directory survives untouched. -/
theorem C6_clear_output_folder_exact :
    ∀ listing : List String,
      ((clear_output_folder listing).2 = (listing.filter shouldDelete).length) ∧
      ((clear_output_folder listing).1 = listing.filter (fun f => !shouldDelete f)) ∧
      (∀ f, f ∈ (clear_output_folder listing).1 ↔
        f ∈ listing ∧ ¬((∃ p : String, f = p ++ ".moonlight") ∨ f = "Moonlight.uuid")) := by
  intro listing
  refine ⟨rfl, rfl, ?_⟩
  intro f
  show f ∈ listing.filter (fun f => !shouldDelete f) ↔ _
  rw [List.mem_filter]
  simp only [Bool.not_eq_eq_eq_not, Bool.not_true, ← shouldDelete_iff]
  constructor
  · rintro ⟨hm, hd⟩
    exact ⟨hm, by simp [hd]⟩
  · rintro ⟨hm, hd⟩
    exact ⟨hm, by simpa using hd⟩

/-- Witness for C6 at a concrete directory state. -/
theorem C6_clear_output_folder_exact_witness :
    (clear_output_folder ["a.moonlight", "keep.txt", "Moonlight.uuid"]).2 = 2 ∧
    "keep.txt" ∈ ["a.moonlight", "keep.txt", "Moonlight.uuid"] :=
  ⟨(C6_clear_output_folder_exact ["a.moonlight", "keep.txt", "Moonlight.uuid"]).1.trans
    (by decide),
   (((C6_clear_output_folder_exact ["a.moonlight", "keep.txt", "Moonlight.uuid"]).2.2
      "keep.txt").mp (by decide)).1⟩

/-- C7: a missing or malformed `apps.json` yields zero apps and the run
returns before any file is deleted or written: no `.moonlight` file (and no
UUID file) is created, and no exception escapes (`load_apps_json` is total
and returns `[]`). -/
theorem C7_missing_or_malformed_apps :
    (load_apps_json .missing = [] ∧ load_apps_json .malformed = []) ∧
    (∀ (uuid : Option String) (fs : FS) (listing : List String) (d : String)
      (ui cf : Bool),
      mainRun .missing uuid fs listing d ui cf = ⟨[], [], 0⟩ ∧
      mainRun .malformed uuid fs listing d ui cf = ⟨[], [], 0⟩) :=
  ⟨⟨rfl, rfl⟩, fun _ _ _ _ _ _ => ⟨rfl, rfl⟩⟩

/-- C8: when a host UUID is present (and the write succeeds) the UUID string
is written verbatim, with nothing appended, as the entire content of
`Moonlight.uuid` in the output directory, and no app file ever writes to that
path; when no UUID is present the file is skipped and the apps are processed
exactly as before, with the same return count. -/
theorem C8_uuid_passthrough :
    ∀ (fs : FS) (listing : List String) (apps : List AppRec) (d : String)
      (ui cf : Bool) (u : String),
      pathJoin d "Moonlight.uuid" ∉ fs.writeFails →
      ((create_moonlight_files fs listing apps d ui (some u) cf).writes =
        (pathJoin d "Moonlight.uuid", u) :: (processApps fs d ui 0 apps).1) ∧
      (∀ c : String, (pathJoin d "Moonlight.uuid", c) ∈
        (create_moonlight_files fs listing apps d ui (some u) cf).writes → c = u) ∧
      ((create_moonlight_files fs listing apps d ui none cf).writes =
        (processApps fs d ui 0 apps).1) ∧
      ((create_moonlight_files fs listing apps d ui none cf).created =
        (create_moonlight_files fs listing apps d ui (some u) cf).created) := by
  intro fs listing apps d ui cf u h
  have h1 := create_writes_some_uuid fs listing apps d ui cf u h
  refine ⟨h1, ?_, create_writes_none_uuid fs listing apps d ui cf, ?_⟩
  · intro c hc
    rw [h1] at hc
    rcases List.mem_cons.mp hc with hc | hc
    · exact congrArg Prod.snd hc
    · exfalso
      rw [processApps_eq] at hc
      obtain ⟨ia, _, hw⟩ := List.mem_filterMap.mp hc
      obtain ⟨x, hx⟩ := appWrite_path fs d ui ia _ hw
      exact moonlight_ne_uuid_name x (pathJoin_right_inj d _ _ hx).symm
  · rw [create_created_eq, create_created_eq]

/-- Witness for C8: the scenario `root.uniqueid = "abc-123"`. -/
theorem C8_uuid_passthrough_witness :
    pathJoin "out" "Moonlight.uuid" ∉ (⟨[], [], []⟩ : FS).writeFails ∧
    (create_moonlight_files ⟨[], [], []⟩ [] [] "out" false (some "abc-123") true).writes =
      (pathJoin "out" "Moonlight.uuid", "abc-123") ::
        (processApps ⟨[], [], []⟩ "out" false 0 []).1 :=
  ⟨by decide,
   (C8_uuid_passthrough ⟨[], [], []⟩ [] [] "out" false true "abc-123" (by decide)).1⟩

/-- C9: apps are processed in input order with their positional indices; the
writes are exactly the successful per-app writes (a failing write is skipped
and every other app still gets its file), and the returned count is exactly
the number of identifier files successfully written. -/
theorem C9_per_app_processing :
    ∀ (fs : FS) (listing : List String) (apps : List AppRec) (d : String)
      (ui cf : Bool) (uuid : Option String),
      ((create_moonlight_files fs listing apps d ui uuid cf).created =
        (processApps fs d ui 0 apps).1.length) ∧
      ((processApps fs d ui 0 apps).1 =
        (List.enumFrom 0 apps).filterMap (appWrite fs d ui)) ∧
      (∀ ia ∈ List.enumFrom 0 apps, ∀ w, appWrite fs d ui ia = some w →
        w ∈ (processApps fs d ui 0 apps).1) := by
  intro fs listing apps d ui cf uuid
  have hp := processApps_eq fs d ui apps 0
  refine ⟨?_, ?_, ?_⟩
  · rw [create_created_eq, hp]
  · rw [hp]
  · intro ia hia w hw
    rw [hp]
    exact List.mem_filterMap.mpr ⟨ia, hia, hw⟩

/-- Witness for C9: the first app's write fails, the second app is still
processed and counted. -/
theorem C9_per_app_processing_witness :
    ((create_moonlight_files ⟨[], [], [pathJoin "o" "A.moonlight"]⟩ []
        [⟨some "A", none⟩, ⟨some "B", none⟩] "o" false none false).created =
      (processApps ⟨[], [], [pathJoin "o" "A.moonlight"]⟩ "o" false 0
        [⟨some "A", none⟩, ⟨some "B", none⟩]).1.length) ∧
    (pathJoin "o" (sanitize_filename "B" ++ ".moonlight"),
      (calculate_app_id ⟨[], [], [pathJoin "o" "A.moonlight"]⟩ "B" "" 1).1) ∈
      (processApps ⟨[], [], [pathJoin "o" "A.moonlight"]⟩ "o" false 0
        [⟨some "A", none⟩, ⟨some "B", none⟩]).1 :=
  ⟨(C9_per_app_processing ⟨[], [], [pathJoin "o" "A.moonlight"]⟩ []
      [⟨some "A", none⟩, ⟨some "B", none⟩] "o" false false none).1,
   (C9_per_app_processing ⟨[], [], [pathJoin "o" "A.moonlight"]⟩ []
      [⟨some "A", none⟩, ⟨some "B", none⟩] "o" false false none).2.2
     (1, ⟨some "B", none⟩) (by decide) _ (by decide)⟩

/-- C10: every identifier produced by `calculate_app_id` is the decimal
rendering of a number in `[0, 2147483648]`, and the top value `2^31` (one
more than the largest positive signed 32-bit integer) is attained exactly
when the checksum is `0x80000000`, so a consumer parsing the content as a
signed 32-bit integer can overflow. -/
theorem C10_identifier_range :
    (∀ (fs : FS) (n p : String) (i : Nat), ∃ a b : Nat,
      calculate_app_id fs n p i = (decRepr a, decRepr b) ∧
      a ≤ 2147483648 ∧ b ≤ 2147483648) ∧
    idFromCrc 0x80000000 = 2147483648 := by
  constructor
  · intro fs n p i
    refine ⟨idFromCrc (calculate_crc32 (hashBase fs n p)),
            idFromCrc (calculate_crc32 (hashBase fs n p ++ decRepr i)),
            calculate_app_id_eq fs n p i, ?_, ?_⟩
    · have h := idFromCrc_le _ (calculate_crc32_lt (hashBase fs n p))
      omega
    · have h := idFromCrc_le _ (calculate_crc32_lt (hashBase fs n p ++ decRepr i))
      omega
  · decide
